import Mathlib

/-!
Verification development for the DARC repository.

This file shallowly embeds the security-relevant parts of the DARC client
(the BB84 key-distribution engine, the two session state machines, and the
counter-disciplined AES-GCM channel) as executable Lean definitions, and
proves or refutes the frozen specification claims about them.

Bytes are modelled as `Nat` values (with the invariant `< 256` carried as
explicit hypotheses where it matters), byte strings as `List Nat`, Python
floats as `ℚ`, and fallible operations as `Option`/`Except`.  External
primitives that the repository only calls (AES-GCM from pycryptodome,
SHA-256 from hashlib, the UTF-8 codec, and the numpy sampling routine) are
modelled as parameters together with the documented contracts those
libraries provide; everything written in the repository itself is
translated directly from its source.
-/

namespace DARC

/-! ## Hex encoding (Python `bytes.hex` / `bytes.fromhex`) -/

/-- Lower-case hex digit for a value below 16, as produced by `bytes.hex()`. -/
def hexDigitChar (n : Nat) : Char :=
  if n < 10 then Char.ofNat (48 + n) else Char.ofNat (87 + n)

/-- Value of a hex digit character; `none` on a non-hex character
(`bytes.fromhex` raises `ValueError` there). -/
def hexVal (c : Char) : Option Nat :=
  if 48 ≤ c.toNat ∧ c.toNat ≤ 57 then some (c.toNat - 48)
  else if 97 ≤ c.toNat ∧ c.toNat ≤ 102 then some (c.toNat - 87)
  else if 65 ≤ c.toNat ∧ c.toNat ≤ 70 then some (c.toNat - 55)
  else none

/-- Model of `bytes.hex()`: two lower-case hex digits per byte. -/
def toHex : List Nat → List Char
  | [] => []
  | b :: bs => hexDigitChar (b / 16) :: hexDigitChar (b % 16) :: toHex bs

/-- Model of `bytes.fromhex`: parses pairs of hex digits; fails on an odd
number of digits or on a non-hex character. -/
def fromHex : List Char → Option (List Nat)
  | [] => some []
  | [_] => none
  | c1 :: c2 :: cs =>
    match hexVal c1, hexVal c2, fromHex cs with
    | some h, some l, some rest => some ((16 * h + l) :: rest)
    | _, _, _ => none

theorem hexVal_hexDigitChar {n : Nat} (h : n < 16) :
    hexVal (hexDigitChar n) = some n := by
  interval_cases n <;> rfl

theorem fromHex_cons (c1 c2 : Char) (cs : List Char) :
    fromHex (c1 :: c2 :: cs) =
      match hexVal c1, hexVal c2, fromHex cs with
      | some h, some l, some rest => some ((16 * h + l) :: rest)
      | _, _, _ => none := rfl

theorem fromHex_toHex {bs : List Nat} (h : ∀ b ∈ bs, b < 256) :
    fromHex (toHex bs) = some bs := by
  induction bs with
  | nil => rfl
  | cons b bs ih =>
    have hb : b < 256 := h b (List.mem_cons_self b bs)
    have h1 : b / 16 < 16 := by omega
    have h2 : b % 16 < 16 := by omega
    have hrest : fromHex (toHex bs) = some bs :=
      ih (fun x hx => h x (List.mem_cons_of_mem b hx))
    have hb_eq : 16 * (b / 16) + b % 16 = b := by omega
    show fromHex (hexDigitChar (b / 16) :: hexDigitChar (b % 16) :: toHex bs)
        = some (b :: bs)
    rw [fromHex_cons, hexVal_hexDigitChar h1, hexVal_hexDigitChar h2, hrest]
    simp [hb_eq]

theorem toHex_injOn {bs1 bs2 : List Nat} (h1 : ∀ b ∈ bs1, b < 256)
    (h2 : ∀ b ∈ bs2, b < 256) (heq : toHex bs1 = toHex bs2) : bs1 = bs2 := by
  have := fromHex_toHex h1
  rw [heq, fromHex_toHex h2] at this
  exact (Option.some.injEq _ _ ▸ this).symm

/-! ## Bit/byte packing helpers (shared by `bb84_qkd.py` and `qkd_session.py`) -/

/-- Inner packing loop `byte |= bit << (7 - j)` over one 8-bit block. -/
def packByte (bits : List Nat) : Nat :=
  bits.enum.foldl (fun byte jb => byte ||| (jb.2 <<< (7 - jb.1))) 0

/-- Converts a bit list to bytes, keeping only complete 8-bit blocks
(`if i + 8 <= len(...)` in the source). -/
def bitsToBytes : List Nat → List Nat
  | b1 :: b2 :: b3 :: b4 :: b5 :: b6 :: b7 :: b8 :: rest =>
    packByte [b1, b2, b3, b4, b5, b6, b7, b8] :: bitsToBytes rest
  | _ => []

/-- Expands each byte into 8 bits, most significant first
(`(byte >> (7 - i)) & 1`). -/
def bytesToBits (bytes : List Nat) : List Nat :=
  bytes.foldr (fun byte acc =>
    ((List.range 8).map (fun i => (byte >>> (7 - i)) &&& 1)) ++ acc) []

theorem bitsToBytes_eq_nil {l : List Nat} (h : l.length < 8) :
    bitsToBytes l = [] := by
  match l with
  | [] => rfl
  | [_] => rfl
  | [_, _] => rfl
  | [_, _, _] => rfl
  | [_, _, _, _] => rfl
  | [_, _, _, _, _] => rfl
  | [_, _, _, _, _, _] => rfl
  | [_, _, _, _, _, _, _] => rfl
  | _ :: _ :: _ :: _ :: _ :: _ :: _ :: _ :: _ =>
    simp at h
    omega

/-! ## External primitive contracts -/

/-- Abstract interface for pycryptodome AES-GCM: `encrypt_and_digest` maps
(key, nonce, plaintext) to (ciphertext, tag); `decrypt_and_verify` returns
the plaintext or a MAC failure. -/
structure GCM where
  encrypt_and_digest : List Nat → List Nat → List Nat → List Nat × List Nat
  decrypt_and_verify : List Nat → List Nat → List Nat → List Nat → Except Unit (List Nat)

/-- Documented AES-GCM contract: decryption inverts encryption under the
same key and nonce, and byte inputs give byte outputs. -/
def GCM.Ok (g : GCM) : Prop :=
  (∀ k n p, g.decrypt_and_verify k n (g.encrypt_and_digest k n p).1
      (g.encrypt_and_digest k n p).2 = Except.ok p) ∧
  (∀ k n p, (∀ b ∈ p, b < 256) →
    (∀ b ∈ (g.encrypt_and_digest k n p).1, b < 256) ∧
    (∀ b ∈ (g.encrypt_and_digest k n p).2, b < 256))

/-- Abstract UTF-8 codec: `encode` models `str.encode` and `decode` models
`bytes.decode` (which can fail on invalid byte sequences). -/
structure Utf8Codec where
  encode : String → List Nat
  decode : List Nat → Option String

/-- Documented codec contract: decoding inverts encoding, and encoding
produces bytes. -/
def Utf8Codec.Ok (c : Utf8Codec) : Prop :=
  (∀ m, c.decode (c.encode m) = some m) ∧
  (∀ m, ∀ b ∈ c.encode m, b < 256)

/-- Documented SHA-256 contract for an abstract hash `sha`: a 32-byte
digest made of bytes. -/
def ShaOk (sha : List Nat → List Nat) : Prop :=
  ∀ x, (sha x).length = 32 ∧ ∀ b ∈ sha x, b < 256

/-! ## KeyedChannel (`app/crypto/aes_quantum.py`) -/

/-- ASCII bytes of the fixed domain tag `DARC_QKD`. -/
def darcTag : List Nat := [68, 65, 82, 67, 95, 81, 75, 68]

/-- Model of `counter.to_bytes(4, big-endian)`; the caller checks the
`counter < 2^32` bound under which `to_bytes` does not raise. -/
def counterBytes4 (c : Nat) : List Nat :=
  [c / 2 ^ 24 % 256, c / 2 ^ 16 % 256, c / 2 ^ 8 % 256, c % 256]

/-- Nonce derivation of `QuantumNonce.generate_nonce`: SHA-256 over the
domain tag, the 4-byte big-endian counter, and one quantum random byte
`qb`, truncated to 12 bytes. -/
def generate_nonce (sha : List Nat → List Nat) (qb : Nat) (counter : Nat) : List Nat :=
  (sha (darcTag ++ counterBytes4 counter ++ [qb])).take 12

/-- AES accepts key lengths 16, 24 and 32; `AES.new` raises otherwise. -/
def validAESKey (key : List Nat) : Bool :=
  key.length = 16 || key.length = 24 || key.length = 32

/-- The JSON envelope produced by `encrypt_message`: hex-encoded nonce, tag
and ciphertext plus the plain counter. -/
structure EncryptedData where
  nonce : List Char
  tag : List Char
  ciphertext : List Char
  counter : Nat
  deriving DecidableEq

/-- Model of `encrypt_message(key, message, counter)`.  All failure paths of
the Python `try` block (an oversized counter in `to_bytes`, an invalid key
length in `AES.new`) are caught there and reported as `None`, modelled as
`none` here.  `qb` is the quantum random byte drawn by `QuantumNonce`. -/
def encrypt_message (g : GCM) (codec : Utf8Codec) (sha : List Nat → List Nat)
    (qb : Nat) (key : List Nat) (message : String) (counter : Nat) :
    Option EncryptedData :=
  if counter < 2 ^ 32 ∧ validAESKey key then
    let nonce := generate_nonce sha qb counter
    let ct := g.encrypt_and_digest key nonce (codec.encode message)
    some ⟨toHex nonce, toHex ct.2, toHex ct.1, counter⟩
  else none

/-- Model of `decrypt_message(key, encrypted_data_json, counter)`.  The wire
input is `none` when `json.loads` fails or a field is missing; the hex
fields are decoded first, then the counter is compared, and only then is the
AEAD cipher constructed and the tag verified — exactly the order of the
source.  Every exception path of the Python `try` block is caught and
reported as `None`, modelled as `none`. -/
def decrypt_message (g : GCM) (codec : Utf8Codec) (key : List Nat)
    (wire : Option EncryptedData) (counter : Nat) : Option String :=
  match wire with
  | none => none
  | some ed =>
    match fromHex ed.nonce, fromHex ed.tag, fromHex ed.ciphertext with
    | some nonce, some tag, some ct =>
      if ed.counter ≠ counter then none
      else if validAESKey key then
        match g.decrypt_and_verify key nonce ct tag with
        | Except.ok pt => codec.decode pt
        | Except.error _ => none
      else none
    | _, _, _ => none

/-! ## BB84Engine (`app/crypto/bb84_qkd.py`) -/

/-- Encoding of `QuantumQubit._encode_qubit` and of the `QUBIT_STATES`
table: a (bit, basis) pair becomes a state symbol string. -/
def encodeQubit (bit basis : Nat) : String :=
  if basis = 0 then
    if bit = 0 then "|0⟩" else "|1⟩"
  else
    if bit = 0 then "|+⟩" else "|-⟩"

/-- The `REVERSE_QUBIT_STATES` table: decodes a state symbol back to its
(bit, basis) pair; `none` models the `KeyError` raised on an unknown key. -/
def reverseQubitState (s : String) : Option (Nat × Nat) :=
  if s = "|0⟩" then some (0, 0)
  else if s = "|1⟩" then some (1, 0)
  else if s = "|+⟩" then some (0, 1)
  else if s = "|-⟩" then some (1, 1)
  else none

/-- The measurement rule of `QuantumQubit.measure`: the stored bit when the
bases agree, otherwise a fresh random bit `coin`. -/
def measureQubit (bit basis measurementBasis coin : Nat) : Nat :=
  if basis = measurementBasis then bit else coin

/-- Model of `BB84QKD.sift_keys`: walks the four lists in parallel and keeps
the positions where the two basis choices agree.  The source iterates over
`range(len(alice_bases))`; the session always calls it with four lists of
equal length, which is the case this recursion covers. -/
def sift_keys : List Nat → List Nat → List Nat → List Nat →
    List Nat × List Nat × List Nat
  | aBit :: aBits, aBas :: aBases, bBit :: bBits, bBas :: bBases =>
    let rest := sift_keys aBits aBases bBits bBases
    if aBas = bBas then
      (bBit :: rest.1, aBit :: rest.2.1, bBit :: rest.2.2)
    else rest
  | _, _, _, _ => ([], [], [])

/-- Model of `BB84QKD.calculate_qber`: 100.0 on an empty input, otherwise
the mismatch count over the zipped lists divided by the length, times 100.
Python floats are modelled as exact rationals. -/
def calculate_qber (alice_sifted bob_sifted : List Nat) : ℚ :=
  if alice_sifted.length = 0 then 100
  else
    let errors := (alice_sifted.zip bob_sifted).countP (fun p => p.1 ≠ p.2)
    (errors : ℚ) / (alice_sifted.length : ℚ) * 100

/-- The Python expression `max(set(block), key=block.count)` for a small-int block:
scans the distinct values in ascending order (the CPython small-int set
iteration order) and keeps the first value with the strictly largest
count.  Defined as 0 on the empty block, which the session never hits. -/
def mostCommon (block : List Nat) : Nat :=
  match block.dedup.mergeSort (fun a b => a ≤ b) with
  | [] => 0
  | v :: vs => vs.foldl (fun best u =>
      if block.count u > block.count best then u else best) v

/-- One pass of the block loop in `BB84QKD.error_correction`: full 3-blocks
are replaced by their per-side majority, a trailing partial block is kept
unmodified on both sides. -/
def ecBlocks : List Nat → List Nat → List Nat × List Nat
  | a1 :: a2 :: a3 :: arest, b =>
    let aBlock := [a1, a2, a3]
    let bBlock := b.take 3
    let rest := ecBlocks arest (b.drop 3)
    (List.replicate 3 (mostCommon aBlock) ++ rest.1,
     List.replicate bBlock.length (mostCommon bBlock) ++ rest.2)
  | [], _ => ([], [])
  | a, b => (a, b.take 3)

/-- Model of `BB84QKD.error_correction`: returns both inputs unchanged when
the first is empty, otherwise majority-votes each 3-block independently on
each side. -/
def error_correction (alice_sifted bob_sifted : List Nat) : List Nat × List Nat :=
  if alice_sifted.isEmpty then (alice_sifted, bob_sifted)
  else ecBlocks alice_sifted bob_sifted

/-- Model of `BB84QKD.privacy_amplification`, parametric in the SHA-256
digest function: packs the bits into full bytes, hashes, expands the digest
back to bits and truncates to 256 bits; returns `[]` when no full byte was
produced. -/
def privacy_amplification (sha : List Nat → List Nat) (sifted_key : List Nat) :
    List Nat :=
  if sifted_key = [] then []
  else
    let key_bytes := bitsToBytes sifted_key
    if key_bytes ≠ [] then (bytesToBits (sha key_bytes)).take 256
    else []

/-- Model of `BB84QKD.generate_final_key`: privacy-amplifies, repacks to
bytes, zero-pads to 32 bytes and truncates to exactly 32 bytes. -/
def generate_final_key (sha : List Nat → List Nat) (sifted_key : List Nat) :
    List Nat :=
  let final_key_bits := privacy_amplification sha sifted_key
  let key_bytes := bitsToBytes final_key_bits
  (key_bytes ++ List.replicate (32 - key_bytes.length) 0).take 32

/-! ## HandshakeStateMachine, variant A (`app/crypto/qkd_session.py`) -/

/-- The `QKDState` enumeration of `qkd_session.py`. -/
inductive QKDState
  | CONNECTED
  | SESSION_REQUEST
  | QKD_INITIALIZATION
  | BASIS_RECONCILIATION
  | QBER_CHECK
  | ERROR_CORRECTION
  | KEY_CONFIRMATION
  | SECURE_CHAT
  | SESSION_TERMINATED
  deriving DecidableEq

/-- Outbound protocol envelopes of `QKDSession`, keeping the payload fields
the protocol peers consume (free-text `message`/`reason` fields dropped). -/
inductive QKDMsg
  | qkd_request (session_id : String)
  | qkd_states (session_id : String) (states : List String)
  | basis_exchange (session_id : String) (bases : List Nat)
  | qber_sample (session_id : String) (sample_indices sample_bits : List Nat)
  | qkd_abort (session_id : String)
  | key_confirmation (session_id : String) (confirmation : List Char)
  | key_mismatch (session_id : String)
  | session_ready (session_id : String)
  | session_terminated (session_id : String)
  deriving DecidableEq

/-- The mutable fields of a `QKDSession` object. -/
structure QKDSess where
  session_id : String
  target_name : String
  is_initiator : Bool
  state : QKDState
  shared_key : Option (List Nat)
  key_length : Nat
  alice_bits : List Nat
  alice_basis : List Nat
  alice_states : List String
  bob_basis : List Nat
  bob_measurements : List Nat
  sifted_key : List Nat
  final_key : Option (List Nat)
  deriving DecidableEq

/-- The `key_confirmation` step: hashes the shared key and sends the first
8 digest bytes hex-encoded.  Only reached with `shared_key` set, so the
`getD` default is never used on the paths the code exercises. -/
def QKDSess.key_confirmation_msg (sha : List Nat → List Nat) (s : QKDSess) :
    QKDMsg :=
  QKDMsg.key_confirmation s.session_id (toHex ((sha (s.shared_key.getD [])).take 8))

/-- The `error_correction` step of `QKDSession`: zero-pads the working key
to at least 32 bits, packs it to bytes, hashes it into `shared_key`, moves
to `KEY_CONFIRMATION` and emits the confirmation envelope. -/
def QKDSess.error_correction_step (sha : List Nat → List Nat) (s : QKDSess) :
    QKDSess × QKDMsg :=
  let fk := s.final_key.getD []
  let fk2 := if fk.length < 32 then fk ++ List.replicate (32 - fk.length) 0 else fk
  let key_bytes := bitsToBytes fk2
  let s2 := { s with final_key := some fk2, shared_key := some (sha key_bytes),
                     state := QKDState.KEY_CONFIRMATION }
  (s2, QKDSess.key_confirmation_msg sha s2)

/-- Model of `QKDSession.perform_qber_check`, parametric in the sampling
oracle `choice` standing for `np.random.choice(n, k, replace=False)`: with
fewer than 20 sifted bits it skips sampling and runs error correction on
the whole sifted key; otherwise it draws `max 5 (n / 4)` sample positions
and, on the initiator side, reveals them to the peer. -/
def QKDSess.perform_qber_check (sha : List Nat → List Nat)
    (choice : Nat → Nat → List Nat) (s : QKDSess) : QKDSess × Option QKDMsg :=
  if s.sifted_key.length < 20 then
    let s2 := { s with final_key := some s.sifted_key,
                       state := QKDState.ERROR_CORRECTION }
    let r := QKDSess.error_correction_step sha s2
    (r.1, some r.2)
  else
    let sample_size := max 5 (s.sifted_key.length / 4)
    let sample_indices := choice s.sifted_key.length sample_size
    if s.is_initiator then
      (s, some (QKDMsg.qber_sample s.session_id sample_indices
        (sample_indices.map (fun i => s.sifted_key.getD i 0))))
    else (s, none)

/-- The list comprehension removing the revealed sample positions from the
working key (`if i not in sample_indices`). -/
def removeSampled (l : List Nat) (indices : List Nat) : List Nat :=
  (l.enum.filter (fun p => !(indices.contains p.1))).map Prod.snd

/-- Model of `QKDSession.receive_qber_sample`: counts mismatches on the
revealed positions; above the 0.11 threshold it moves to
`SESSION_TERMINATED` and emits `qkd_abort`, otherwise it strips the sampled
positions and runs error correction. -/
def QKDSess.receive_qber_sample (sha : List Nat → List Nat) (s : QKDSess)
    (sample_indices sample_bits : List Nat) : QKDSess × QKDMsg :=
  let errors := (sample_indices.zip sample_bits).countP
    (fun p => s.sifted_key.getD p.1 0 ≠ p.2)
  let qber := (errors : ℚ) / (sample_indices.length : ℚ)
  if qber > 11 / 100 then
    ({ s with state := QKDState.SESSION_TERMINATED }, QKDMsg.qkd_abort s.session_id)
  else
    let s2 := { s with final_key := some (removeSampled s.sifted_key sample_indices),
                       state := QKDState.ERROR_CORRECTION }
    QKDSess.error_correction_step sha s2

/-- Model of `QKDSession.receive_key_confirmation`: compares the first 8
bytes of the own key digest with those of the peer; `none` models the uncaught
`ValueError` of `bytes.fromhex` on malformed hex. -/
def QKDSess.receive_key_confirmation (sha : List Nat → List Nat) (s : QKDSess)
    (confirmation_hex : List Char) : Option (QKDSess × QKDMsg) :=
  let my_confirmation := (sha (s.shared_key.getD [])).take 8
  match fromHex confirmation_hex with
  | none => none
  | some their_confirmation =>
    if my_confirmation ≠ their_confirmation then
      some ({ s with state := QKDState.SESSION_TERMINATED },
        QKDMsg.key_mismatch s.session_id)
    else
      some ({ s with state := QKDState.SECURE_CHAT },
        QKDMsg.session_ready s.session_id)

/-- Model of `QKDSession.terminate_session`: moves to `SESSION_TERMINATED`
and clears `shared_key`, `final_key` and `sifted_key` — and nothing else. -/
def QKDSess.terminate_session (s : QKDSess) : QKDSess × QKDMsg :=
  ({ s with state := QKDState.SESSION_TERMINATED, shared_key := none,
            final_key := none, sifted_key := [] },
   QKDMsg.session_terminated s.session_id)

/-! ## HandshakeStateMachine, variant B (`app/session/quantum_session.py`) -/

/-- The `SessionState` enumeration of `quantum_session.py`. -/
inductive SessionState
  | IDLE
  | SESSION_REQUESTED
  | SESSION_ACCEPTED
  | QKD_EXCHANGING
  | KEY_ESTABLISHED
  | SESSION_ACTIVE
  | SESSION_TERMINATED
  deriving DecidableEq

/-- Envelopes sent by `QuantumSession` through the signaling client. -/
inductive QMsg
  | session_request
  | session_accept
  | qkd_qubits (qubits : List String)
  | qkd_bases (bases : List Nat)
  | qkd_measurements (measurements : List Nat)
  | key_verification (verification_hash : List Char)
  | key_confirmed
  | session_restart
  | session_terminated
  deriving DecidableEq

/-- The mutable fields of a `QuantumSession` object.  A prepared qubit is
its stored (bit, basis) pair. -/
structure QSess where
  user_id : String
  peer_id : String
  state : SessionState
  alice_bits : List Nat
  alice_bases : List Nat
  bob_bases : List Nat
  qubits : List (Nat × Nat)
  shared_key : Option (List Nat)
  qber : ℚ
  message_counter : Nat
  deriving DecidableEq

/-- Model of `QuantumSession.restart_session`: clears every QKD buffer, the
key, the error rate and the counter, re-enters `SESSION_REQUESTED` and
emits a `session_restart` envelope. -/
def QSess.restart_session (s : QSess) : QSess × List QMsg :=
  ({ s with alice_bits := [], alice_bases := [], bob_bases := [], qubits := [],
            shared_key := none, qber := 0, message_counter := 0,
            state := SessionState.SESSION_REQUESTED },
   [QMsg.session_restart])

/-- Model of `QuantumSession.terminate_session`: clears all sensitive data
and enters the terminal state from any state. -/
def QSess.terminate_session (s : QSess) : QSess × List QMsg :=
  ({ s with alice_bits := [], alice_bases := [], bob_bases := [], qubits := [],
            shared_key := none, qber := 0, message_counter := 0,
            state := SessionState.SESSION_TERMINATED },
   [QMsg.session_terminated])

/-- Model of `QuantumSession.start_session`: only leaves `IDLE`; the `Bool`
is the Python return value. -/
def QSess.start_session (s : QSess) : QSess × List QMsg × Bool :=
  if s.state ≠ SessionState.IDLE then (s, [], false)
  else ({ s with state := SessionState.SESSION_REQUESTED },
    [QMsg.session_request], true)

/-- Model of `QuantumSession.handle_session_request` together with the
`start_qkd_as_receiver` task it spawns; `rb` stands for the 256 random
measurement bases that task draws. -/
def QSess.handle_session_request (rb : List Nat) (s : QSess) :
    QSess × List QMsg × Bool :=
  if s.state ≠ SessionState.IDLE then (s, [], false)
  else ({ s with state := SessionState.SESSION_ACCEPTED, bob_bases := rb },
    [QMsg.session_accept, QMsg.qkd_bases rb], true)

/-- Model of `QuantumSession.handle_session_accept` together with the
`start_qkd_as_sender` task it spawns; `ab`/`abases` stand for the 256
random bits and bases that task draws. -/
def QSess.handle_session_accept (ab abases : List Nat) (s : QSess) :
    QSess × List QMsg × Bool :=
  if s.state ≠ SessionState.SESSION_REQUESTED then (s, [], false)
  else
    let qubits := ab.zip abases
    ({ s with state := SessionState.QKD_EXCHANGING, alice_bits := ab,
              alice_bases := abases, qubits := qubits },
     [QMsg.qkd_qubits (qubits.map (fun q => encodeQubit q.1 q.2))], true)

/-- Model of `QuantumSession.handle_qkd_qubits` (receiver side): dropped
silently outside `QKD_EXCHANGING`; decodes each symbol and measures it in
the own basis (`coin i` is the random outcome drawn on a basis mismatch at
position `i`); any exception of the handler body — an unknown symbol
(`KeyError`) or a missing own basis (`IndexError`) — restarts the session. -/
def QSess.handle_qkd_qubits (coin : Nat → Nat) (s : QSess)
    (states : List String) : QSess × List QMsg :=
  if s.state ≠ SessionState.QKD_EXCHANGING then (s, [])
  else if (states.all (fun st => (reverseQubitState st).isSome))
      ∧ states.length ≤ s.bob_bases.length then
    let measurements := states.enum.map (fun p =>
      let bb := (reverseQubitState p.2).getD (0, 0)
      measureQubit bb.1 bb.2 (s.bob_bases.getD p.1 0) (coin p.1))
    (s, [QMsg.qkd_measurements measurements])
  else QSess.restart_session s

/-- Model of `QuantumSession.handle_qkd_bases` (sender side): dropped
silently outside `QKD_EXCHANGING`; stores the peer bases and measures the
own qubits with them; a missing basis (`IndexError`) restarts the session. -/
def QSess.handle_qkd_bases (coin : Nat → Nat) (s : QSess) (bases : List Nat) :
    QSess × List QMsg :=
  if s.state ≠ SessionState.QKD_EXCHANGING then (s, [])
  else if s.qubits.length ≤ bases.length then
    let measurements := s.qubits.enum.map (fun p =>
      measureQubit p.2.1 p.2.2 (bases.getD p.1 0) (coin p.1))
    ({ s with bob_bases := bases }, [QMsg.qkd_measurements measurements])
  else QSess.restart_session { s with bob_bases := bases }

/-- Model of `QuantumSession.handle_qkd_measurements`: dropped silently
outside `QKD_EXCHANGING`; sifts, computes the QBER percentage, restarts
above the 11.0 threshold, otherwise error-corrects, derives the final key
and emits the `key_verification` digest.  `generate_final_key` always
returns a non-empty 32-byte key, so the `if not self.shared_key` restart
guard of `verify_key_consistency` is never taken. -/
def QSess.handle_qkd_measurements (sha : List Nat → List Nat) (s : QSess)
    (measurements : List Nat) : QSess × List QMsg :=
  if s.state ≠ SessionState.QKD_EXCHANGING then (s, [])
  else
    let sifted := sift_keys s.alice_bits s.alice_bases measurements s.bob_bases
    let q := calculate_qber sifted.2.1 sifted.2.2
    if q > 11 then QSess.restart_session { s with qber := q }
    else
      let corrected := error_correction sifted.2.1 sifted.2.2
      let key := generate_final_key sha corrected.1
      ({ s with qber := q, shared_key := some key },
       [QMsg.key_verification (toHex (sha (key.take 16)))])

/-- Model of `QuantumSession.handle_key_verification` (no state guard in
the source): compares the hex digests of the first 16 key bytes; equality
activates the session and notifies the peer, a mismatch — or the
`TypeError` thrown when no key is set — restarts the session. -/
def QSess.handle_key_verification (sha : List Nat → List Nat) (s : QSess)
    (verification_hash : List Char) : QSess × List QMsg :=
  match s.shared_key with
  | none => QSess.restart_session s
  | some k =>
    if verification_hash = toHex (sha (k.take 16)) then
      ({ s with state := SessionState.SESSION_ACTIVE }, [QMsg.key_confirmed])
    else QSess.restart_session s

/-- Model of `QuantumSession.handle_key_confirmed`: no state guard — it
unconditionally enters `SESSION_ACTIVE`. -/
def QSess.handle_key_confirmed (s : QSess) : QSess × List QMsg :=
  ({ s with state := SessionState.SESSION_ACTIVE }, [])

/-! ## Helper lemmas -/

/-- Specification-side mismatch counter, defined independently of the
`countP`-over-`zip` loop used in the embedded code. -/
def mismatchCount : List Nat → List Nat → Nat
  | a :: as, b :: bs => (if a ≠ b then 1 else 0) + mismatchCount as bs
  | _, _ => 0

theorem countP_zip_eq_mismatchCount (a b : List Nat) :
    (a.zip b).countP (fun p => p.1 ≠ p.2) = mismatchCount a b := by
  induction a generalizing b with
  | nil => cases b <;> rfl
  | cons x xs ih =>
    cases b with
    | nil => rfl
    | cons y ys =>
      simp only [List.zip_cons_cons, List.countP_cons, mismatchCount, ih ys]
      by_cases h : x = y
      · simp [h]
      · simp [h]
        omega

theorem mismatchCount_self (x : List Nat) : mismatchCount x x = 0 := by
  induction x with
  | nil => rfl
  | cons a as ih => simp [mismatchCount, ih]

/-- Fixed all-zero stand-in digest used to instantiate the abstract hash in
concrete witnesses. -/
def shaZ : List Nat → List Nat := fun _ => List.replicate 32 0

theorem shaZ_ok : ShaOk shaZ := by
  intro x
  constructor
  · simp [shaZ]
  · intro b hb
    simp [shaZ, List.eq_of_mem_replicate hb]

/-! ## C8 — `calculate_qber` -/

/-- Claim C8: for equal-length bit sequences `calculate_qber` returns the
mismatch fraction times 100; it returns 0 on any non-empty identical pair
and 100.0 on empty inputs (the empty case is the one the code defines as
100.0, so the identical-sequence clause applies to non-empty inputs). -/
theorem darc_C8_qber :
    (∀ a b : List Nat, a.length = b.length → a ≠ [] →
      calculate_qber a b = (mismatchCount a b : ℚ) / (a.length : ℚ) * 100) ∧
    (∀ x : List Nat, x ≠ [] → calculate_qber x x = 0) ∧
    calculate_qber [] [] = 100 := by
  refine ⟨?_, ?_, rfl⟩
  · intro a b _ ha
    have hlen : a.length ≠ 0 := fun h => ha (List.eq_nil_of_length_eq_zero h)
    unfold calculate_qber
    rw [if_neg hlen, countP_zip_eq_mismatchCount]
  · intro x hx
    have hlen : x.length ≠ 0 := fun h => hx (List.eq_nil_of_length_eq_zero h)
    unfold calculate_qber
    rw [if_neg hlen, countP_zip_eq_mismatchCount, mismatchCount_self]
    simp

/-- Witness for C8 at concrete inputs. -/
theorem darc_C8_qber_witness :
    calculate_qber [0, 1] [0, 0] = (mismatchCount [0, 1] [0, 0] : ℚ) / 2 * 100 ∧
    calculate_qber [1, 0] [1, 0] = 0 ∧
    calculate_qber [] [] = 100 :=
  ⟨darc_C8_qber.1 [0, 1] [0, 0] rfl (by decide),
   darc_C8_qber.2.1 [1, 0] (by decide),
   darc_C8_qber.2.2⟩

/-! ## C10 — `privacy_amplification` / `generate_final_key` on short inputs -/

theorem privacy_amplification_short {sha : List Nat → List Nat}
    {sifted : List Nat} (h : sifted.length < 8) :
    privacy_amplification sha sifted = [] := by
  unfold privacy_amplification
  rcases eq_or_ne sifted [] with rfl | hne
  · simp
  · simp [hne, bitsToBytes_eq_nil h]

/-- Claim C10: below 8 input bits `privacy_amplification` returns `[]` and
`generate_final_key` returns the all-zero 32-byte key; from 8 bits on,
`generate_final_key` returns exactly 32 bytes. -/
theorem darc_C10_final_key :
    (∀ (sha : List Nat → List Nat) (sifted : List Nat), sifted.length < 8 →
      privacy_amplification sha sifted = [] ∧
      generate_final_key sha sifted = List.replicate 32 0) ∧
    (∀ (sha : List Nat → List Nat) (sifted : List Nat), 8 ≤ sifted.length →
      (generate_final_key sha sifted).length = 32) := by
  constructor
  · intro sha sifted h
    refine ⟨privacy_amplification_short h, ?_⟩
    unfold generate_final_key
    rw [privacy_amplification_short h]
    simp [bitsToBytes]
  · intro sha sifted _
    unfold generate_final_key
    simp only [List.length_take, List.length_append, List.length_replicate]
    omega

/-- Witness for C10 at concrete inputs. -/
theorem darc_C10_final_key_witness :
    (privacy_amplification shaZ [1, 0, 1] = [] ∧
      generate_final_key shaZ [1, 0, 1] = List.replicate 32 0) ∧
    (generate_final_key shaZ [1, 0, 1, 1, 0, 1, 1, 0]).length = 32 :=
  ⟨darc_C10_final_key.1 shaZ [1, 0, 1] (by decide),
   darc_C10_final_key.2 shaZ [1, 0, 1, 1, 0, 1, 1, 0] (by decide)⟩

/-! ## C6 — terminate -/

/-- Concrete `QKDSession` used to exhibit the buffers that termination
leaves behind. -/
def qkdLeakSession : QKDSess :=
  ⟨"sid1", "bob", true, QKDState.SECURE_CHAT, some (List.replicate 32 7), 256,
   [1, 0, 1], [0, 0, 1], ["|1⟩", "|0⟩", "|-⟩"], [0, 1, 1], [1, 1, 0],
   [1, 0], some [1, 1]⟩

/-- Counterexample to claim C6 as stated: terminating this concrete
`QKDSession` leaves the transient arrays of bits, bases, states and
measurements non-empty, so the terminate operation does not empty every
transient array. -/
theorem darc_C6_counterexample :
    (QKDSess.terminate_session qkdLeakSession).1.alice_bits = [1, 0, 1] ∧
    (QKDSess.terminate_session qkdLeakSession).1.alice_basis = [0, 0, 1] ∧
    (QKDSess.terminate_session qkdLeakSession).1.bob_measurements = [1, 1, 0] ∧
    (QKDSess.terminate_session qkdLeakSession).1.alice_bits ≠ [] := by
  refine ⟨rfl, rfl, rfl, ?_⟩
  decide

/-- Claim C6 as amended: terminate is accepted from every state in both
session classes and always reaches the terminal state.
`QuantumSession.terminate_session` clears every secret buffer (bits, bases,
qubits, key, error rate, counter), while `QKDSession.terminate_session`
clears only `shared_key`, `final_key` and `sifted_key` and preserves the
transient bit/basis/state/measurement arrays unchanged. -/
theorem darc_C6_terminate :
    (∀ s : QSess, QSess.terminate_session s =
      ({ s with state := SessionState.SESSION_TERMINATED, alice_bits := [],
                alice_bases := [], bob_bases := [], qubits := [],
                shared_key := none, qber := 0, message_counter := 0 },
       [QMsg.session_terminated])) ∧
    (∀ s : QKDSess,
      (QKDSess.terminate_session s).1.state = QKDState.SESSION_TERMINATED ∧
      (QKDSess.terminate_session s).1.shared_key = none ∧
      (QKDSess.terminate_session s).1.final_key = none ∧
      (QKDSess.terminate_session s).1.sifted_key = [] ∧
      (QKDSess.terminate_session s).1.alice_bits = s.alice_bits ∧
      (QKDSess.terminate_session s).1.alice_basis = s.alice_basis ∧
      (QKDSess.terminate_session s).1.alice_states = s.alice_states ∧
      (QKDSess.terminate_session s).1.bob_basis = s.bob_basis ∧
      (QKDSess.terminate_session s).1.bob_measurements = s.bob_measurements) :=
  ⟨fun _ => rfl, fun _ => ⟨rfl, rfl, rfl, rfl, rfl, rfl, rfl, rfl, rfl⟩⟩

/-! ## C5 — state fencing of inbound envelopes -/

/-- Concrete idle `QuantumSession` for the C5 counterexample. -/
def idleSession : QSess :=
  ⟨"alice", "bob", SessionState.IDLE, [], [], [], [], none, 0, 0⟩

/-- Counterexample to claim C5 as stated: a `key_confirmed` envelope is not
expected in `IDLE`, yet handling it does not leave the session unchanged —
it moves the idle session straight into `SESSION_ACTIVE`. -/
theorem darc_C5_counterexample :
    idleSession.state = SessionState.IDLE ∧
    (QSess.handle_key_confirmed idleSession).1.state =
      SessionState.SESSION_ACTIVE := ⟨rfl, rfl⟩

/-- Claim C5 as amended: the five guarded `QuantumSession` handlers
(session request, session accept, qubits, bases, measurements) drop an
envelope arriving in a state that does not expect it, leaving the session
completely unchanged and sending nothing; but `handle_key_confirmed` has no
such guard — it moves the session to `SESSION_ACTIVE` from every state
(while leaving all other session data, including key material, intact). -/
theorem darc_C5_fencing :
    (∀ (rb : List Nat) (s : QSess), s.state ≠ SessionState.IDLE →
      QSess.handle_session_request rb s = (s, [], false)) ∧
    (∀ (ab abases : List Nat) (s : QSess),
      s.state ≠ SessionState.SESSION_REQUESTED →
      QSess.handle_session_accept ab abases s = (s, [], false)) ∧
    (∀ (coin : Nat → Nat) (s : QSess) (states : List String),
      s.state ≠ SessionState.QKD_EXCHANGING →
      QSess.handle_qkd_qubits coin s states = (s, [])) ∧
    (∀ (coin : Nat → Nat) (s : QSess) (bases : List Nat),
      s.state ≠ SessionState.QKD_EXCHANGING →
      QSess.handle_qkd_bases coin s bases = (s, [])) ∧
    (∀ (sha : List Nat → List Nat) (s : QSess) (measurements : List Nat),
      s.state ≠ SessionState.QKD_EXCHANGING →
      QSess.handle_qkd_measurements sha s measurements = (s, [])) ∧
    (∀ s : QSess, QSess.handle_key_confirmed s =
      ({ s with state := SessionState.SESSION_ACTIVE }, [])) := by
  refine ⟨?_, ?_, ?_, ?_, ?_, fun _ => rfl⟩
  · intro rb s h
    simp [QSess.handle_session_request, h]
  · intro ab abases s h
    simp [QSess.handle_session_accept, h]
  · intro coin s states h
    simp [QSess.handle_qkd_qubits, h]
  · intro coin s bases h
    simp [QSess.handle_qkd_bases, h]
  · intro sha s measurements h
    simp [QSess.handle_qkd_measurements, h]

/-- Witness for C5 on the concrete idle session (whose state is neither
`SESSION_REQUESTED` nor `QKD_EXCHANGING`, so every guard fires). -/
theorem darc_C5_fencing_witness :
    QSess.handle_session_request [0, 1] ({ idleSession with
      state := SessionState.SESSION_ACTIVE }) =
      ({ idleSession with state := SessionState.SESSION_ACTIVE }, [], false) ∧
    QSess.handle_session_accept [1] [0] idleSession = (idleSession, [], false) ∧
    QSess.handle_qkd_qubits (fun _ => 0) idleSession [] = (idleSession, []) ∧
    QSess.handle_qkd_bases (fun _ => 0) idleSession [1, 1] = (idleSession, []) ∧
    QSess.handle_qkd_measurements shaZ idleSession [0] = (idleSession, []) ∧
    QSess.handle_key_confirmed idleSession =
      ({ idleSession with state := SessionState.SESSION_ACTIVE }, []) :=
  ⟨darc_C5_fencing.1 [0, 1] _ (by decide),
   darc_C5_fencing.2.1 [1] [0] idleSession (by decide),
   darc_C5_fencing.2.2.1 (fun _ => 0) idleSession [] (by decide),
   darc_C5_fencing.2.2.2.1 (fun _ => 0) idleSession [1, 1] (by decide),
   darc_C5_fencing.2.2.2.2.1 shaZ idleSession [0] (by decide),
   darc_C5_fencing.2.2.2.2.2 idleSession⟩

/-! ## C3 — QBER threshold outcome -/

/-- Concrete `QKDSession` in `QBER_CHECK` with a 20-bit sifted key. -/
def qberSession : QKDSess :=
  ⟨"sid2", "bob", false, QKDState.QBER_CHECK, none, 256,
   [], [], [], [], [], List.replicate 20 0, none⟩

/-- Counterexample to claim C3 as stated: receiving a QBER sample whose
five revealed bits all disagree (sample error rate 1 > 0.11) drives this
concrete `QKDSession` into the terminal `SESSION_TERMINATED` state with a
`qkd_abort` envelope — not into a restart that re-issues a session
request. -/
theorem darc_C3_counterexample :
    QKDSess.receive_qber_sample shaZ qberSession [0, 1, 2, 3, 4]
      [1, 1, 1, 1, 1] =
      ({ qberSession with state := QKDState.SESSION_TERMINATED },
       QKDMsg.qkd_abort qberSession.session_id) := by
  unfold QKDSess.receive_qber_sample
  rw [if_pos]
  norm_num [qberSession]

/-- The initiator-side sifted sequence produced inside
`handle_qkd_measurements`. -/
def siftedA (s : QSess) (measurements : List Nat) : List Nat :=
  (sift_keys s.alice_bits s.alice_bases measurements s.bob_bases).2.1

/-- The responder-side sifted sequence produced inside
`handle_qkd_measurements`. -/
def siftedB (s : QSess) (measurements : List Nat) : List Nat :=
  (sift_keys s.alice_bits s.alice_bases measurements s.bob_bases).2.2

/-- The QBER percentage computed inside `handle_qkd_measurements`. -/
def measuredQber (s : QSess) (measurements : List Nat) : ℚ :=
  calculate_qber (siftedA s measurements) (siftedB s measurements)

/-- The candidate key derived inside `handle_qkd_measurements`. -/
def derivedKey (sha : List Nat → List Nat) (s : QSess)
    (measurements : List Nat) : List Nat :=
  generate_final_key sha
    (error_correction (siftedA s measurements) (siftedB s measurements)).1

/-- Claim C3 as amended: the restart behaviour holds for
`QuantumSession.handle_qkd_measurements` — a measured QBER above 11%
restarts the session (state `SESSION_REQUESTED`, all buffers cleared, a
`session_restart` envelope issued), and only a QBER at or below 11% leads
on to error correction and key derivation; `QKDSession.receive_qber_sample`
instead moves to the terminal `SESSION_TERMINATED` state when its sample
error rate exceeds 0.11. -/
theorem darc_C3_qber_restart (sha : List Nat → List Nat) (s : QSess)
    (measurements : List Nat) (hstate : s.state = SessionState.QKD_EXCHANGING) :
    (measuredQber s measurements > 11 →
      QSess.handle_qkd_measurements sha s measurements =
        ({ s with alice_bits := [], alice_bases := [], bob_bases := [],
                  qubits := [], shared_key := none, qber := 0,
                  message_counter := 0,
                  state := SessionState.SESSION_REQUESTED },
         [QMsg.session_restart])) ∧
    (measuredQber s measurements ≤ 11 →
      QSess.handle_qkd_measurements sha s measurements =
        ({ s with qber := measuredQber s measurements,
                  shared_key := some (derivedKey sha s measurements) },
         [QMsg.key_verification
            (toHex (sha ((derivedKey sha s measurements).take 16)))])) ∧
    (∀ (t : QKDSess) (idx bits : List Nat),
      ((idx.zip bits).countP (fun p => t.sifted_key.getD p.1 0 ≠ p.2) : ℚ) /
          (idx.length : ℚ) > 11 / 100 →
      QKDSess.receive_qber_sample sha t idx bits =
        ({ t with state := QKDState.SESSION_TERMINATED },
         QKDMsg.qkd_abort t.session_id)) := by
  refine ⟨?_, ?_, ?_⟩
  · intro hq
    simp only [measuredQber, siftedA, siftedB] at hq
    simp only [QSess.handle_qkd_measurements, hstate]
    rw [if_neg (by simp), if_pos hq]
    rfl
  · intro hq
    simp only [measuredQber, siftedA, siftedB] at hq
    simp only [QSess.handle_qkd_measurements, hstate]
    rw [if_neg (by simp), if_neg (not_lt.mpr hq)]
    rfl
  · intro t idx bits hq
    simp only [QKDSess.receive_qber_sample]
    rw [if_pos hq]

/-- Concrete exchanging `QuantumSession`: two prepared bits, both sides in
the Z basis. -/
def exchSession : QSess :=
  ⟨"alice", "bob", SessionState.QKD_EXCHANGING, [0, 0], [0, 0], [0, 0],
   [(0, 0), (0, 0)], none, 0, 0⟩

theorem exch_qber_high : measuredQber exchSession [1, 1] > 11 := by
  norm_num [measuredQber, siftedA, siftedB, exchSession, sift_keys,
    calculate_qber]

theorem exch_qber_low : measuredQber exchSession [0, 0] ≤ 11 := by
  norm_num [measuredQber, siftedA, siftedB, exchSession, sift_keys,
    calculate_qber]

/-- Witness for C3: on the concrete exchanging session, fully mismatching
measurements (QBER 100%) restart the session, matching measurements
(QBER 0%) proceed to key derivation, and a concrete over-threshold sample
terminates the `QKDSession`. -/
theorem darc_C3_qber_restart_witness :
    QSess.handle_qkd_measurements shaZ exchSession [1, 1] =
      ({ exchSession with alice_bits := [], alice_bases := [],
                          bob_bases := [], qubits := [], shared_key := none,
                          qber := 0, message_counter := 0,
                          state := SessionState.SESSION_REQUESTED },
       [QMsg.session_restart]) ∧
    QSess.handle_qkd_measurements shaZ exchSession [0, 0] =
      ({ exchSession with qber := measuredQber exchSession [0, 0],
                          shared_key := some (derivedKey shaZ exchSession [0, 0]) },
       [QMsg.key_verification
          (toHex (shaZ ((derivedKey shaZ exchSession [0, 0]).take 16)))]) ∧
    QKDSess.receive_qber_sample shaZ qberSession [0, 1, 2, 3, 4]
        [1, 1, 1, 1, 1] =
      ({ qberSession with state := QKDState.SESSION_TERMINATED },
       QKDMsg.qkd_abort qberSession.session_id) :=
  ⟨(darc_C3_qber_restart shaZ exchSession [1, 1] rfl).1 exch_qber_high,
   (darc_C3_qber_restart shaZ exchSession [0, 0] rfl).2.1 exch_qber_low,
   (darc_C3_qber_restart shaZ exchSession [0, 0] rfl).2.2 qberSession
     [0, 1, 2, 3, 4] [1, 1, 1, 1, 1] (by norm_num [qberSession])⟩

/-! ## C4 — key confirmation outcome -/

/-- Concrete `QKDSession` holding a shared key, awaiting confirmation. -/
def confirmSession : QKDSess :=
  ⟨"sid3", "bob", true, QKDState.KEY_CONFIRMATION, some (List.replicate 32 0),
   256, [], [], [], [], [], [], some (List.replicate 32 0)⟩

/-- Counterexample to claim C4 as stated: a mismatching confirmation hash
(valid hex, eight 0x01 bytes against the eight 0x00 bytes of the own digest)
drives this concrete `QKDSession` into the terminal `SESSION_TERMINATED`
state with a `key_mismatch` envelope — not into a restart with a fresh
session request. -/
theorem darc_C4_counterexample :
    QKDSess.receive_key_confirmation shaZ confirmSession
      (toHex [1, 1, 1, 1, 1, 1, 1, 1]) =
      some ({ confirmSession with state := QKDState.SESSION_TERMINATED },
        QKDMsg.key_mismatch confirmSession.session_id) := by
  have hhex : fromHex (toHex [1, 1, 1, 1, 1, 1, 1, 1]) =
      some [1, 1, 1, 1, 1, 1, 1, 1] :=
    fromHex_toHex (by decide)
  unfold QKDSess.receive_key_confirmation
  rw [hhex]
  norm_num [confirmSession, shaZ]
  decide

/-- Claim C4 as amended: in `QuantumSession.handle_key_verification` an
exactly matching digest adopts the key and moves the session to
`SESSION_ACTIVE` (notifying the peer with `key_confirmed`), while a
mismatch restarts the session — cleared buffers, state
`SESSION_REQUESTED`, a fresh `session_restart` envelope — and never
reaches `SESSION_ACTIVE` silently; `QKDSession.receive_key_confirmation`
instead answers a mismatching confirmation with the terminal
`SESSION_TERMINATED` state and a `key_mismatch` envelope. -/
theorem darc_C4_key_confirm (sha : List Nat → List Nat) (s : QSess)
    (k : List Nat) (hk : s.shared_key = some k) :
    (∀ vh : List Char, vh = toHex (sha (k.take 16)) →
      QSess.handle_key_verification sha s vh =
        ({ s with state := SessionState.SESSION_ACTIVE },
         [QMsg.key_confirmed])) ∧
    (∀ vh : List Char, vh ≠ toHex (sha (k.take 16)) →
      QSess.handle_key_verification sha s vh =
        ({ s with alice_bits := [], alice_bases := [], bob_bases := [],
                  qubits := [], shared_key := none, qber := 0,
                  message_counter := 0,
                  state := SessionState.SESSION_REQUESTED },
         [QMsg.session_restart])) ∧
    (∀ (t : QKDSess) (tk their : List Nat), t.shared_key = some tk →
      their ≠ (sha tk).take 8 →
      QKDSess.receive_key_confirmation sha t (toHex their) =
        (if (∀ b ∈ their, b < 256) then
          some ({ t with state := QKDState.SESSION_TERMINATED },
            QKDMsg.key_mismatch t.session_id)
         else QKDSess.receive_key_confirmation sha t (toHex their))) := by
  refine ⟨?_, ?_, ?_⟩
  · intro vh hvh
    simp [QSess.handle_key_verification, hk, hvh]
  · intro vh hvh
    simp [QSess.handle_key_verification, hk, hvh, QSess.restart_session]
  · intro t tk their htk hne
    by_cases hb : ∀ b ∈ their, b < 256
    · rw [if_pos hb]
      unfold QKDSess.receive_key_confirmation
      rw [fromHex_toHex hb, htk]
      simp only [Option.getD_some]
      rw [if_pos (fun h => hne h.symm)]
    · rw [if_neg hb]

/-- Concrete `QuantumSession` holding an adopted candidate key. -/
def keyedSession : QSess :=
  { exchSession with shared_key := some (List.replicate 32 0) }

/-- Witness for C4 at concrete inputs: matching and mismatching digests on
a concrete `QuantumSession`, and a mismatching confirmation on the concrete
`QKDSession`. -/
theorem darc_C4_key_confirm_witness :
    QSess.handle_key_verification shaZ keyedSession
        (toHex (shaZ (List.replicate 16 0))) =
      ({ keyedSession with state := SessionState.SESSION_ACTIVE },
       [QMsg.key_confirmed]) ∧
    QSess.handle_key_verification shaZ keyedSession [] =
      ({ keyedSession with alice_bits := [], alice_bases := [],
                           bob_bases := [], qubits := [], shared_key := none,
                           qber := 0, message_counter := 0,
                           state := SessionState.SESSION_REQUESTED },
       [QMsg.session_restart]) ∧
    QKDSess.receive_key_confirmation shaZ confirmSession
        (toHex [1, 1, 1, 1, 1, 1, 1, 1]) =
      (if (∀ b ∈ [1, 1, 1, 1, 1, 1, 1, 1], b < 256) then
        some ({ confirmSession with state := QKDState.SESSION_TERMINATED },
          QKDMsg.key_mismatch confirmSession.session_id)
       else QKDSess.receive_key_confirmation shaZ confirmSession
         (toHex [1, 1, 1, 1, 1, 1, 1, 1])) :=
  ⟨(darc_C4_key_confirm shaZ keyedSession (List.replicate 32 0) rfl).1 _ (by
      simp [shaZ]),
   (darc_C4_key_confirm shaZ keyedSession (List.replicate 32 0) rfl).2.1 []
     (by simp [shaZ, toHex, List.replicate]),
   (darc_C4_key_confirm shaZ keyedSession (List.replicate 32 0) rfl).2.2
     confirmSession (List.replicate 32 0) [1, 1, 1, 1, 1, 1, 1, 1] rfl
     (by decide)⟩

/-! ## C7 — QBER sampling policy -/

theorem countP_or_disj (l : List Nat) (p q : Nat → Bool)
    (h : ∀ x ∈ l, ¬(p x = true ∧ q x = true)) :
    l.countP (fun x => p x || q x) = l.countP p + l.countP q := by
  induction l with
  | nil => rfl
  | cons a as ih =>
    have ha := h a (List.mem_cons_self a as)
    have ih2 := ih (fun x hx => h x (List.mem_cons_of_mem a hx))
    simp only [List.countP_cons, ih2]
    cases hp : p a <;> cases hq : q a <;> simp_all <;> omega

theorem countP_beq_range {a n : Nat} (h : a < n) :
    (List.range n).countP (fun i => i == a) = 1 := by
  have : (List.range n).countP (fun i => i == a) = (List.range n).count a := rfl
  rw [this]
  exact List.count_eq_one_of_mem (List.nodup_range n) (List.mem_range.mpr h)

theorem countP_elem_range (idx : List Nat) (n : Nat) (hnd : idx.Nodup)
    (hb : ∀ i ∈ idx, i < n) :
    (List.range n).countP (fun i => idx.contains i) = idx.length := by
  induction idx with
  | nil => simp [List.contains]
  | cons a as ih =>
    have hnd2 := hnd.of_cons
    have hna : a ∉ as := by
      intro hmem
      exact (List.nodup_cons.mp hnd).1 hmem
    have hcongr : (List.range n).countP (fun i => (a :: as).contains i) =
        (List.range n).countP (fun i => (i == a) || as.contains i) := by
      apply List.countP_congr
      intro x _
      simp [List.contains, List.elem_cons]
    have hdisj : ∀ x ∈ List.range n, ¬((x == a) = true ∧ as.contains x = true) := by
      rintro x _ ⟨hxa, hxin⟩
      have hx : x = a := by simpa using hxa
      subst hx
      exact hna (by simpa [List.contains] using hxin)
    have hsplit : (List.range n).countP (fun i => (i == a) || as.contains i) =
        (List.range n).countP (fun i => i == a) +
          (List.range n).countP (fun i => as.contains i) :=
      countP_or_disj (List.range n) (fun i => i == a)
        (fun i => as.contains i) hdisj
    rw [hcongr, hsplit, countP_beq_range (hb a (List.mem_cons_self a as)),
      ih hnd2 (fun i hi => hb i (List.mem_cons_of_mem a hi))]
    simp [Nat.add_comm]

theorem removeSampled_length (l idx : List Nat) (hnd : idx.Nodup)
    (hb : ∀ i ∈ idx, i < l.length) :
    (removeSampled l idx).length = l.length - idx.length := by
  unfold removeSampled
  rw [List.length_map, ← List.countP_eq_length_filter]
  have hmap : l.enum.countP (fun p => !(idx.contains p.1)) =
      (l.enum.map Prod.fst).countP (fun i => !(idx.contains i)) := by
    rw [List.countP_map]
    rfl
  rw [hmap, List.enum_map_fst]
  have key : (List.range l.length).countP (fun i => !(idx.contains i)) +
      idx.length = l.length := by
    have hsplit := List.length_eq_countP_add_countP
      (fun i => idx.contains i) (List.range l.length)
    have hbridge : (List.range l.length).countP
        (fun x => decide ¬((fun i => idx.contains i) x = true)) =
        (List.range l.length).countP (fun i => !(idx.contains i)) := by
      apply List.countP_congr
      intro x _
      simp
    rw [List.length_range, countP_elem_range idx l.length hnd hb, hbridge]
      at hsplit
    omega
  omega

/-- Concrete initiator `QKDSession` with a 21-bit sifted key. -/
def s21 : QKDSess :=
  ⟨"sid4", "bob", true, QKDState.QBER_CHECK, none, 256,
   [], [], [], [], [], List.replicate 21 0, none⟩

/-- Deterministic sampling oracle (a legal draw of
`np.random.choice(n, k, replace=False)`): the first `k` positions. -/
def rangeChoice : Nat → Nat → List Nat := fun _ k => List.range k

/-- Counterexample to claim C7 as stated: on a 21-bit sifted key the code
samples `max 5 (21 / 4) = 5` positions, not the claimed
`max 5 ⌈21 / 4⌉ = 6`: the emitted `qber_sample` envelope carries exactly 5
indices. -/
theorem darc_C7_counterexample :
    QKDSess.perform_qber_check shaZ rangeChoice s21 =
      (s21, some (QKDMsg.qber_sample s21.session_id (List.range 5)
        (List.replicate 5 0))) ∧
    (List.range 5).length ≠ max 5 ((21 + 3) / 4) := by
  constructor
  · decide
  · decide

/-- Claim C7 as amended (sample size `max 5 ⌊len / 4⌋`, floor instead of
ceiling): with fewer than 20 sifted bits `perform_qber_check` skips
sampling and goes straight to the error-correction step on the whole
sifted key; with at least 20 bits the initiator reveals exactly
`max 5 (len / 4)` distinct in-range positions (under the contract of
`np.random.choice(n, k, replace=False)`), and the receiving side, below
the error threshold, removes exactly the sampled positions from the
working key, keeping `len - sampled` bits. -/
theorem darc_C7_qber_sampling :
    (∀ (sha : List Nat → List Nat) (choice : Nat → Nat → List Nat)
        (s : QKDSess), s.sifted_key.length < 20 →
      QKDSess.perform_qber_check sha choice s =
        ((QKDSess.error_correction_step sha
            ({ s with final_key := some s.sifted_key,
                      state := QKDState.ERROR_CORRECTION })).1,
         some (QKDSess.error_correction_step sha
            ({ s with final_key := some s.sifted_key,
                      state := QKDState.ERROR_CORRECTION })).2)) ∧
    (∀ (sha : List Nat → List Nat) (choice : Nat → Nat → List Nat)
        (s : QKDSess),
      (∀ n k, k ≤ n → (choice n k).length = k ∧ (choice n k).Nodup ∧
        ∀ i ∈ choice n k, i < n) →
      20 ≤ s.sifted_key.length → s.is_initiator = true →
      QKDSess.perform_qber_check sha choice s =
        (s, some (QKDMsg.qber_sample s.session_id
          (choice s.sifted_key.length (max 5 (s.sifted_key.length / 4)))
          ((choice s.sifted_key.length (max 5 (s.sifted_key.length / 4))).map
            (fun i => s.sifted_key.getD i 0)))) ∧
      (choice s.sifted_key.length (max 5 (s.sifted_key.length / 4))).length =
        max 5 (s.sifted_key.length / 4) ∧
      (choice s.sifted_key.length (max 5 (s.sifted_key.length / 4))).Nodup ∧
      (∀ i ∈ choice s.sifted_key.length (max 5 (s.sifted_key.length / 4)),
        i < s.sifted_key.length)) ∧
    (∀ (sha : List Nat → List Nat) (s : QKDSess) (idx bits : List Nat),
      ¬(((idx.zip bits).countP (fun p => s.sifted_key.getD p.1 0 ≠ p.2) : ℚ) /
          (idx.length : ℚ) > 11 / 100) →
      QKDSess.receive_qber_sample sha s idx bits =
        QKDSess.error_correction_step sha
          ({ s with final_key := some (removeSampled s.sifted_key idx),
                    state := QKDState.ERROR_CORRECTION })) ∧
    (∀ (l idx : List Nat), idx.Nodup → (∀ i ∈ idx, i < l.length) →
      (removeSampled l idx).length = l.length - idx.length) := by
  refine ⟨?_, ?_, ?_, removeSampled_length⟩
  · intro sha choice s h
    simp only [QKDSess.perform_qber_check, if_pos h]
  · intro sha choice s hchoice h20 hinit
    have hle : max 5 (s.sifted_key.length / 4) ≤ s.sifted_key.length := by
      have := Nat.div_le_self s.sifted_key.length 4
      omega
    obtain ⟨hlen, hnd, hbnd⟩ := hchoice s.sifted_key.length
      (max 5 (s.sifted_key.length / 4)) hle
    refine ⟨?_, hlen, hnd, hbnd⟩
    simp only [QKDSess.perform_qber_check, if_neg (by omega : ¬ s.sifted_key.length < 20),
      hinit, if_pos]
  · intro sha s idx bits hq
    simp only [QKDSess.receive_qber_sample, if_neg hq]

/-- Witness for C7: a 19-bit key skips sampling; a 20-bit key with the
`rangeChoice` oracle reveals exactly 5 positions; a matching 1-position
sample is removed from the key; and the removal-length law at a concrete
instance. -/
theorem darc_C7_qber_sampling_witness :
    QKDSess.perform_qber_check shaZ rangeChoice
        ({ s21 with sifted_key := List.replicate 19 0 }) =
      ((QKDSess.error_correction_step shaZ
          ({ ({ s21 with sifted_key := List.replicate 19 0 }) with
            final_key := some (List.replicate 19 0),
            state := QKDState.ERROR_CORRECTION })).1,
       some (QKDSess.error_correction_step shaZ
          ({ ({ s21 with sifted_key := List.replicate 19 0 }) with
            final_key := some (List.replicate 19 0),
            state := QKDState.ERROR_CORRECTION })).2) ∧
    (QKDSess.perform_qber_check shaZ rangeChoice
        ({ s21 with sifted_key := List.replicate 20 0 }) =
      ({ s21 with sifted_key := List.replicate 20 0 },
       some (QKDMsg.qber_sample s21.session_id (List.range 5)
         (List.replicate 5 0)))) ∧
    QKDSess.receive_qber_sample shaZ qberSession [0] [0] =
      QKDSess.error_correction_step shaZ
        ({ qberSession with
           final_key := some (removeSampled qberSession.sifted_key [0]),
           state := QKDState.ERROR_CORRECTION }) ∧
    (removeSampled (List.replicate 20 0) [0]).length = 20 - 1 := by
  have h19 := darc_C7_qber_sampling.1 shaZ rangeChoice
    ({ s21 with sifted_key := List.replicate 19 0 }) (by decide)
  have hchoiceOk : ∀ n k, k ≤ n → (rangeChoice n k).length = k ∧
      (rangeChoice n k).Nodup ∧ ∀ i ∈ rangeChoice n k, i < n := by
    intro n k hk
    refine ⟨by simp [rangeChoice], List.nodup_range k, ?_⟩
    intro i hi
    exact lt_of_lt_of_le (List.mem_range.mp hi) hk
  have h20 := (darc_C7_qber_sampling.2.1 shaZ rangeChoice
    ({ s21 with sifted_key := List.replicate 20 0 }) hchoiceOk
    (by decide) rfl).1
  have hrm := darc_C7_qber_sampling.2.2.1 shaZ qberSession [0] [0]
    (by norm_num [qberSession])
  have hlen := darc_C7_qber_sampling.2.2.2 (List.replicate 20 0) [0]
    (by decide) (by decide)
  refine ⟨h19, ?_, hrm, hlen⟩
  convert h20 using 3

/-! ## C1, C2, C9 — KeyedChannel properties -/

theorem decrypt_none (g : GCM) (codec : Utf8Codec) (key : List Nat) (c : Nat) :
    decrypt_message g codec key none c = none := rfl

theorem decrypt_message_some (g : GCM) (codec : Utf8Codec) (key : List Nat)
    (ed : EncryptedData) (c : Nat) :
    decrypt_message g codec key (some ed) c =
      match fromHex ed.nonce, fromHex ed.tag, fromHex ed.ciphertext with
      | some nonce, some tag, some ct =>
        if ed.counter ≠ c then none
        else if validAESKey key then
          match g.decrypt_and_verify key nonce ct tag with
          | Except.ok pt => codec.decode pt
          | Except.error _ => none
        else none
      | _, _, _ => none := rfl

theorem decrypt_counter_mismatch (g : GCM) (codec : Utf8Codec) (key : List Nat)
    (ed : EncryptedData) (c : Nat) (hne : ed.counter ≠ c) :
    decrypt_message g codec key (some ed) c = none := by
  rw [decrypt_message_some]
  cases hn : fromHex ed.nonce with
  | none => rfl
  | some n =>
    cases ht : fromHex ed.tag with
    | none => rfl
    | some t =>
      cases hct : fromHex ed.ciphertext with
      | none => rfl
      | some ct => simp [hne]

theorem decrypt_bad_key (g : GCM) (codec : Utf8Codec) (key : List Nat)
    (wire : Option EncryptedData) (c : Nat) (hk : validAESKey key = false) :
    decrypt_message g codec key wire c = none := by
  cases wire with
  | none => rfl
  | some ed =>
    rw [decrypt_message_some]
    cases hn : fromHex ed.nonce with
    | none => rfl
    | some n =>
      cases ht : fromHex ed.tag with
      | none => rfl
      | some t =>
        cases hct : fromHex ed.ciphertext with
        | none => rfl
        | some ct =>
          by_cases hcc : ed.counter ≠ c
          · simp [hcc]
          · simp [hcc, hk]

theorem decrypt_bad_hex (g : GCM) (codec : Utf8Codec) (key : List Nat)
    (ed : EncryptedData) (c : Nat)
    (h : fromHex ed.nonce = none ∨ fromHex ed.tag = none ∨
      fromHex ed.ciphertext = none) :
    decrypt_message g codec key (some ed) c = none := by
  rw [decrypt_message_some]
  cases hn : fromHex ed.nonce with
  | none => rfl
  | some n =>
    cases ht : fromHex ed.tag with
    | none => rfl
    | some t =>
      cases hct : fromHex ed.ciphertext with
      | none => rfl
      | some ct =>
        rw [hn, ht, hct] at h
        rcases h with h | h | h <;> exact absurd h (by simp)

theorem decrypt_tag_failure (g : GCM) (codec : Utf8Codec) (key : List Nat)
    (ed : EncryptedData) (c : Nat) (n t ct : List Nat)
    (hn : fromHex ed.nonce = some n) (ht : fromHex ed.tag = some t)
    (hct : fromHex ed.ciphertext = some ct)
    (herr : g.decrypt_and_verify key n ct t = Except.error ()) :
    decrypt_message g codec key (some ed) c = none := by
  rw [decrypt_message_some, hn, ht, hct]
  by_cases hcc : ed.counter ≠ c
  · simp [hcc]
  · by_cases hk : validAESKey key
    · simp [hcc, hk, herr]
    · simp [hcc, hk]

theorem encrypt_message_some (g : GCM) (codec : Utf8Codec)
    (sha : List Nat → List Nat) (qb : Nat) (key : List Nat) (m : String)
    (c : Nat) (hkey : validAESKey key = true) (hc : c < 2 ^ 32) :
    encrypt_message g codec sha qb key m c =
      some ⟨toHex (generate_nonce sha qb c),
        toHex (g.encrypt_and_digest key (generate_nonce sha qb c)
          (codec.encode m)).2,
        toHex (g.encrypt_and_digest key (generate_nonce sha qb c)
          (codec.encode m)).1, c⟩ := by
  unfold encrypt_message
  rw [if_pos ⟨hc, hkey⟩]

theorem decrypt_encrypt_roundtrip (g : GCM) (codec : Utf8Codec)
    (sha : List Nat → List Nat) (qb : Nat) (key : List Nat) (m : String)
    (c : Nat) (hg : GCM.Ok g) (hcodec : Utf8Codec.Ok codec) (hsha : ShaOk sha)
    (hkey : validAESKey key = true) (hc : c < 2 ^ 32) :
    decrypt_message g codec key (encrypt_message g codec sha qb key m c) c =
      some m := by
  rw [encrypt_message_some g codec sha qb key m c hkey hc]
  have hnonce : ∀ b ∈ generate_nonce sha qb c, b < 256 := by
    intro b hb
    exact (hsha (darcTag ++ counterBytes4 c ++ [qb])).2 b
      (List.take_subset 12 _ hb)
  have hpt : ∀ b ∈ codec.encode m, b < 256 := hcodec.2 m
  have hctb := (hg.2 key (generate_nonce sha qb c) (codec.encode m) hpt).1
  have htagb := (hg.2 key (generate_nonce sha qb c) (codec.encode m) hpt).2
  rw [decrypt_message_some]
  simp only []
  rw [fromHex_toHex hnonce, fromHex_toHex htagb, fromHex_toHex hctb]
  simp only []
  rw [if_neg (by simp), if_pos hkey, hg.1 key (generate_nonce sha qb c)
    (codec.encode m)]
  exact hcodec.1 m

/-- Claim C1: for every 32-byte key, plaintext and counter, decrypting the
envelope produced by `encrypt_message` with the same key and counter
returns exactly the original plaintext, under the documented contracts of
AES-GCM, UTF-8 and SHA-256. -/
theorem darc_C1_roundtrip (g : GCM) (codec : Utf8Codec)
    (sha : List Nat → List Nat) (qb : Nat) (key : List Nat) (m : String)
    (c : Nat) (hg : GCM.Ok g) (hcodec : Utf8Codec.Ok codec) (hsha : ShaOk sha)
    (hkey : key.length = 32) (hc : c < 2 ^ 32) :
    decrypt_message g codec key (encrypt_message g codec sha qb key m c) c =
      some m :=
  decrypt_encrypt_roundtrip g codec sha qb key m c hg hcodec hsha
    (by simp [validAESKey, hkey]) hc

/-- Claim C2: a counter mismatch makes `decrypt_message` fail before any
AEAD work — the result is `none` for every possible behaviour of the AEAD
backend (the decryption backend `g2` is quantified independently of the
encrypting one, so the outcome cannot depend on any cryptographic
comparison); in particular decrypting a fresh envelope with expected
counter `c + 1` fails. -/
theorem darc_C2_replay :
    (∀ (g : GCM) (codec : Utf8Codec) (key : List Nat) (ed : EncryptedData)
        (c : Nat), ed.counter ≠ c →
      decrypt_message g codec key (some ed) c = none) ∧
    (∀ (g g2 : GCM) (codec codec2 : Utf8Codec) (sha : List Nat → List Nat)
        (qb : Nat) (key : List Nat) (m : String) (c : Nat),
      decrypt_message g2 codec2 key (encrypt_message g codec sha qb key m c)
        (c + 1) = none) := by
  constructor
  · exact fun g codec key ed c h => decrypt_counter_mismatch g codec key ed c h
  · intro g g2 codec codec2 sha qb key m c
    by_cases h : c < 2 ^ 32 ∧ validAESKey key
    · rw [encrypt_message_some g codec sha qb key m c h.2 h.1]
      exact decrypt_counter_mismatch g2 codec2 key _ (c + 1) (by simp)
    · unfold encrypt_message
      rw [if_neg h]
      rfl

/-! ## Concrete AEAD and codec instances for witnesses -/

/-- Trivial AEAD satisfying the `GCM.Ok` contract: the ciphertext is the
plaintext and the tag is empty. -/
def gId : GCM where
  encrypt_and_digest := fun _ _ p => (p, [])
  decrypt_and_verify := fun _ _ ct tag =>
    if tag = [] then Except.ok ct else Except.error ()

theorem gId_ok : GCM.Ok gId := by
  constructor
  · intro k n p
    rfl
  · intro k n p h
    exact ⟨h, by simp [gId]⟩

/-- Four big-endian bytes encoding one character. -/
def char4 (c : Char) : List Nat :=
  [c.toNat / 2 ^ 24, c.toNat / 2 ^ 16 % 256, c.toNat / 2 ^ 8 % 256,
   c.toNat % 256]

def chars4 : List Char → List Nat
  | [] => []
  | c :: cs => char4 c ++ chars4 cs

def unchars4 : List Nat → Option (List Char)
  | [] => some []
  | a :: b :: d :: e :: rest =>
    (unchars4 rest).map
      (fun cs => Char.ofNat (a * 2 ^ 24 + b * 2 ^ 16 + d * 2 ^ 8 + e) :: cs)
  | _ => none

/-- Concrete injective codec (4 bytes per character) satisfying the
`Utf8Codec.Ok` contract. -/
def codec4 : Utf8Codec where
  encode := fun m => chars4 m.toList
  decode := fun bs => (unchars4 bs).map (fun cs => String.mk cs)

theorem unchars4_chars4 (l : List Char) : unchars4 (chars4 l) = some l := by
  induction l with
  | nil => rfl
  | cons c cs ih =>
    show unchars4 (char4 c ++ chars4 cs) = some (c :: cs)
    simp only [char4, List.cons_append, List.nil_append, unchars4, ih,
      Option.map_some]
    have harith : c.toNat / 2 ^ 24 * 2 ^ 24 + c.toNat / 2 ^ 16 % 256 * 2 ^ 16 +
        c.toNat / 2 ^ 8 % 256 * 2 ^ 8 + c.toNat % 256 = c.toNat := by
      omega
    rw [harith, Char.ofNat_toNat]
    simp [ih]

theorem chars4_bytes (l : List Char) : ∀ b ∈ chars4 l, b < 256 := by
  induction l with
  | nil => simp [chars4]
  | cons c cs ih =>
    intro b hb
    rcases List.mem_append.mp hb with h | h
    · have hcv : c.toNat < 2 ^ 32 := by
        have := c.val.val.isLt
        simpa [Char.toNat, UInt32.toNat] using this
      simp only [char4, List.mem_cons, List.not_mem_nil, or_false] at h
      rcases h with rfl | rfl | rfl | rfl <;> omega
    · exact ih b h

theorem codec4_ok : Utf8Codec.Ok codec4 := by
  constructor
  · intro m
    show (unchars4 (chars4 m.toList)).map (fun cs => String.mk cs) = some m
    rw [unchars4_chars4]
    rfl
  · intro m
    exact chars4_bytes m.toList

/-- Witness for C1 at a concrete key, message and counter, with the
concrete AEAD, codec and hash instances. -/
theorem darc_C1_roundtrip_witness :
    decrypt_message gId codec4 (List.replicate 32 0)
      (encrypt_message gId codec4 shaZ 0 (List.replicate 32 0) ("ok") 0) 0 =
      some ("ok") :=
  darc_C1_roundtrip gId codec4 shaZ 0 (List.replicate 32 0) ("ok") 0
    gId_ok codec4_ok shaZ_ok (by simp) (by norm_num)

/-- Witness for C2: a concrete envelope whose counter field 5 differs from
the expected counter 4 decrypts to `none`, and a freshly encrypted envelope
replayed against counter `c + 1 = 4` decrypts to `none`. -/
theorem darc_C2_replay_witness :
    decrypt_message gId codec4 (List.replicate 32 0)
      (some ⟨[], [], [], 5⟩) 4 = none ∧
    decrypt_message gId codec4 (List.replicate 32 0)
      (encrypt_message gId codec4 shaZ 0 (List.replicate 32 0) ("hi") 3) 4 =
      none :=
  ⟨darc_C2_replay.1 gId codec4 (List.replicate 32 0) ⟨[], [], [], 5⟩ 4
     (by decide),
   darc_C2_replay.2 gId gId codec4 codec4 shaZ 0 (List.replicate 32 0)
     ("hi") 3⟩

/-! ## C9 — total failure-as-`none` behaviour -/

/-- Claim C9: every failure mode of the channel — invalid key length,
malformed JSON (`none` wire), non-hex fields, counter mismatch, AEAD tag
failure — is reported by returning `none` (the Python `try` blocks catch
the exception and return `None`), and on valid inputs both functions
return a non-`None` value. -/
theorem darc_C9_no_raise :
    (∀ (g : GCM) (codec : Utf8Codec) (sha : List Nat → List Nat) (qb : Nat)
        (key : List Nat) (m : String) (c : Nat) (wire : Option EncryptedData),
      validAESKey key = false →
      encrypt_message g codec sha qb key m c = none ∧
      decrypt_message g codec key wire c = none) ∧
    (∀ (g : GCM) (codec : Utf8Codec) (key : List Nat) (c : Nat),
      decrypt_message g codec key none c = none) ∧
    (∀ (g : GCM) (codec : Utf8Codec) (key : List Nat) (ed : EncryptedData)
        (c : Nat),
      fromHex ed.nonce = none ∨ fromHex ed.tag = none ∨
        fromHex ed.ciphertext = none →
      decrypt_message g codec key (some ed) c = none) ∧
    (∀ (g : GCM) (codec : Utf8Codec) (key : List Nat) (ed : EncryptedData)
        (c : Nat), ed.counter ≠ c →
      decrypt_message g codec key (some ed) c = none) ∧
    (∀ (g : GCM) (codec : Utf8Codec) (key : List Nat) (ed : EncryptedData)
        (c : Nat) (n t ct : List Nat),
      fromHex ed.nonce = some n → fromHex ed.tag = some t →
      fromHex ed.ciphertext = some ct →
      g.decrypt_and_verify key n ct t = Except.error () →
      decrypt_message g codec key (some ed) c = none) ∧
    (∀ (g : GCM) (codec : Utf8Codec) (sha : List Nat → List Nat) (qb : Nat)
        (key : List Nat) (m : String) (c : Nat),
      GCM.Ok g → Utf8Codec.Ok codec → ShaOk sha →
      key.length = 32 → c < 2 ^ 32 →
      (∃ ed, encrypt_message g codec sha qb key m c = some ed) ∧
      decrypt_message g codec key (encrypt_message g codec sha qb key m c) c =
        some m) := by
  refine ⟨?_, decrypt_none, decrypt_bad_hex, decrypt_counter_mismatch,
    decrypt_tag_failure, ?_⟩
  · intro g codec sha qb key m c wire hk
    constructor
    · unfold encrypt_message
      rw [if_neg]
      intro hcontra
      rw [hk] at hcontra
      exact Bool.false_ne_true hcontra.2
    · exact decrypt_bad_key g codec key wire c hk
  · intro g codec sha qb key m c hg hcodec hsha hkey hc
    have hv : validAESKey key = true := by simp [validAESKey, hkey]
    refine ⟨⟨_, encrypt_message_some g codec sha qb key m c hv hc⟩, ?_⟩
    exact decrypt_encrypt_roundtrip g codec sha qb key m c hg hcodec hsha hv hc

/-- Witness for C9: each failure mode and the success mode exercised at
concrete inputs. -/
theorem darc_C9_no_raise_witness :
    (encrypt_message gId codec4 shaZ 0 [1, 2] ("x") 0 = none ∧
      decrypt_message gId codec4 [1, 2] (some ⟨[], [], [], 0⟩) 0 = none) ∧
    decrypt_message gId codec4 (List.replicate 32 0) none 0 = none ∧
    decrypt_message gId codec4 (List.replicate 32 0)
      (some ⟨[Char.ofNat 48], [], [], 0⟩) 0 = none ∧
    decrypt_message gId codec4 (List.replicate 32 0) (some ⟨[], [], [], 7⟩) 0 =
      none ∧
    decrypt_message gId codec4 (List.replicate 32 0)
      (some ⟨toHex [1], toHex [2], toHex [3], 0⟩) 0 = none ∧
    ((∃ ed, encrypt_message gId codec4 shaZ 0 (List.replicate 32 0) ("x") 0 =
        some ed) ∧
      decrypt_message gId codec4 (List.replicate 32 0)
        (encrypt_message gId codec4 shaZ 0 (List.replicate 32 0) ("x") 0) 0 =
        some ("x")) :=
  ⟨darc_C9_no_raise.1 gId codec4 shaZ 0 [1, 2] ("x") 0 (some ⟨[], [], [], 0⟩)
     (by decide),
   darc_C9_no_raise.2.1 gId codec4 (List.replicate 32 0) 0,
   darc_C9_no_raise.2.2.1 gId codec4 (List.replicate 32 0)
     ⟨[Char.ofNat 48], [], [], 0⟩ 0 (Or.inl rfl),
   darc_C9_no_raise.2.2.2.1 gId codec4 (List.replicate 32 0) ⟨[], [], [], 7⟩ 0
     (by decide),
   darc_C9_no_raise.2.2.2.2.1 gId codec4 (List.replicate 32 0)
     ⟨toHex [1], toHex [2], toHex [3], 0⟩ 0 [1] [2] [3]
     (fromHex_toHex (by decide)) (fromHex_toHex (by decide))
     (fromHex_toHex (by decide)) rfl,
   darc_C9_no_raise.2.2.2.2.2 gId codec4 shaZ 0 (List.replicate 32 0) ("x") 0
     gId_ok codec4_ok shaZ_ok (by simp) (by norm_num)⟩

end DARC
